import Mathlib

/-!
Shallow embedding of the valuation, scoring and portfolio-TWR core of
src/backend/main.py (Stock-App). Money, price and score quantities are
modelled as rationals; pandas Series and DataFrames become lists (ordered
newest-first, following the upstream convention); Python truthiness on
optional numeric fields is modelled explicitly. Display strings, logging
and HTTP plumbing are omitted; only the numeric and selection behaviour
is embedded.
-/

set_option maxRecDepth 8000

namespace StockApp

/-- Python coalescing on an optional numeric field: the expression
a or b evaluates to b when a is absent or zero (falsy), and to a
otherwise. -/
def pyOr (a : Option ℚ) (b : ℚ) : ℚ :=
  match a with
  | none => b
  | some x => if x = 0 then b else x

/-- Starting-segment test on character lists (helper for substring tests). -/
def isStartOf : List Char → List Char → Bool
  | [], _ => true
  | _ :: _, [] => false
  | a :: as, b :: bs => a == b && isStartOf as bs

/-- Substring occurrence on character lists. -/
def occursIn (needle : List Char) : List Char → Bool
  | [] => needle.isEmpty
  | b :: bs => isStartOf needle (b :: bs) || occursIn needle bs

/-- Models the Python membership test needle in hay on strings. -/
def strContains (hay needle : String) : Bool := occursIn needle.data hay.data

/-! ## Basic inputs of calculate_intrinsic_value (main.py lines 489-499) -/

/-- The subset of the provider info mapping read by the basic-inputs step of
calculate_intrinsic_value. -/
structure ValInfo where
  currentPrice : Option ℚ
  regularMarketPrice : Option ℚ
  sharesOutstanding : Option ℚ
  impliedSharesOutstanding : Option ℚ

/-- current_price = info.get("currentPrice") or info.get("regularMarketPrice") or 0 -/
def current_price (i : ValInfo) : ℚ := pyOr i.currentPrice (pyOr i.regularMarketPrice 0)

/-- shares_outstanding = info.get("sharesOutstanding") or
info.get("impliedSharesOutstanding") or 1 -/
def shares_outstanding (i : ValInfo) : ℚ :=
  pyOr i.sharesOutstanding (pyOr i.impliedSharesOutstanding 1)

/-- The early return of calculate_intrinsic_value: some (status, intrinsicValue)
when the guard (not current_price or not shares_outstanding) fires, none when
the function proceeds to compute the valuation methods. -/
def early_error (i : ValInfo) : Option (String × ℚ) :=
  if current_price i = 0 ∨ shares_outstanding i = 0 then some ("Error", 0) else none

/-! ## Valuation output status (main.py lines 677-681) -/

/-- diff_percent = ((current_price / intrinsicValue) - 1) if intrinsicValue > 0 else 0 -/
def diff_percent (price iv : ℚ) : ℚ := if 0 < iv then price / iv - 1 else 0

/-- status label from the percentage difference: Overvalued above 15 percent,
Undervalued below minus 15 percent, Fairly Valued otherwise. -/
def valuation_status (dp : ℚ) : String :=
  if 3/20 < dp then "Overvalued"
  else if dp < -(3/20) then "Undervalued"
  else "Fairly Valued"

/-! ## TTM aggregation (main.py lines 992-1007)

A quarterly statement table: ncols quarterly columns ordered newest-first,
and named rows, each carrying its list of column values. -/

structure QTable where
  ncols : Nat
  rows : List (String × List ℚ)

/-- First-match lookup in a named-row list (like df.loc on a unique index). -/
def assocLookup {α : Type} : List (String × α) → String → Option α
  | [], _ => none
  | r :: rest, name => if r.1 = name then some r.2 else assocLookup rest name

/-- Look up a named row of a quarterly table. -/
def rowLookup (t : QTable) (name : String) : Option (List ℚ) :=
  assocLookup t.rows name

/-- TTM snapshot from a quarterly flow table: the source computes
q.iloc[:, :4].sum(axis=1) only when the table is nonempty and has at least 4
columns; otherwise the snapshot stays the empty Series. -/
def ttm_flow (t : QTable) : List (String × ℚ) :=
  if t.rows.isEmpty ∨ t.ncols < 4 then []
  else t.rows.map (fun r => (r.1, (r.2.take 4).sum))

/-- TTM snapshot from the quarterly balance sheet: the source takes
q.iloc[:, 0] (the most recent column) when the table is nonempty. -/
def ttm_pointInTime (t : QTable) : List (String × ℚ) :=
  if t.rows.isEmpty ∨ t.ncols = 0 then []
  else t.rows.map (fun r => (r.1, r.2.headD 0))

/-- Look up a metric in a TTM snapshot. -/
def ttmLookup (snap : List (String × ℚ)) (name : String) : Option ℚ :=
  assocLookup snap name

/-! ## Discount rate and growth schedule (main.py lines 508-530) -/

/-- The beta step table get_discount_rate uses for China-flagged entities. -/
def china_table (beta : ℚ) : ℚ :=
  if beta < 4/5 then 8/100
  else if beta < 1 then 9/100
  else if beta < 6/5 then 10/100
  else 11/100

/-- The beta step table get_discount_rate uses for all other entities. -/
def us_table (beta : ℚ) : ℚ :=
  if beta < 4/5 then 54/1000
  else if beta < 19/20 then 57/1000
  else if beta < 21/20 then 60/1000
  else if beta < 23/20 then 63/1000
  else if beta < 5/4 then 66/1000
  else if beta < 27/20 then 69/1000
  else if beta < 29/20 then 72/1000
  else if beta < 31/20 then 75/1000
  else 78/1000

/-- The beta/country step function of get_discount_rate. -/
def get_discount_rate (beta : ℚ) (country : String) : ℚ :=
  if strContains country "China" then china_table beta else us_table beta

/-- growth_rate_1_5 = min(max(enhanced_growth, -0.10), 0.35) -/
def growth_rate_1_5 (eg : ℚ) : ℚ := min (max eg (-(1/10))) (35/100)

/-- growth_rate_6_10 = min(growth_rate_1_5, 0.15) -/
def growth_rate_6_10 (eg : ℚ) : ℚ := min (growth_rate_1_5 eg) (15/100)

/-- growth_rate_11_20 = 0.06 if "China" in country else 0.04 -/
def growth_rate_11_20 (country : String) : ℚ :=
  if strContains country "China" then 6/100 else 4/100

/-! ## DCF variant (main.py lines 549-576) -/

/-- n compounding steps at growth rate g starting from curr: returns the list
of projected values (in order) and the final value. -/
def growSteps (g : ℚ) : Nat → ℚ → List ℚ × ℚ
  | 0, curr => ([], curr)
  | n + 1, curr =>
      let c := curr * (1 + g)
      let r := growSteps g n c
      (c :: r.1, r.2)

/-- The 20 projected values of calculate_dcf_variant: 5 years at the year 1-5
rate, 5 at the year 6-10 rate, 10 at the year 11-20 rate. -/
def future_vals (base g15 g610 g1120 : ℚ) : List ℚ :=
  let a := growSteps g15 5 base
  let b := growSteps g610 5 a.2
  let c := growSteps g1120 10 b.2
  a.1 ++ b.1 ++ c.1

/-- pv_sum = sum(v / ((1 + discount_rate) ** (i + 1)) for i, v in enumerate(vals)),
written with the year index k carried explicitly (k starts at 1). -/
def pvAux (rate : ℚ) : Nat → List ℚ → ℚ
  | _, [] => 0
  | k, v :: rest => v / (1 + rate) ^ k + pvAux rate (k + 1) rest

/-- The intrinsicValue field produced by calculate_dcf_variant: present value
of the 20-year projection plus cash minus total debt, per share, clamped at 0
by max(0, iv). The three DCF-family methods differ only in base. -/
def dcf_intrinsic (base cash debt shares eg beta : ℚ) (country : String) : ℚ :=
  let rate := get_discount_rate beta country
  let fv := future_vals base (growth_rate_1_5 eg) (growth_rate_6_10 eg)
      (growth_rate_11_20 country)
  let pv_sum := pvAux rate 1 fv
  let equity_val := pv_sum + cash - debt
  max 0 (equity_val / shares)

/-! ## Recommended-method selection (main.py lines 644-668) -/

/-- One checklist entry: its name and whether its status is Pass. -/
structure Criterion where
  name : String
  pass : Bool

/-- The pass/fail outcomes and classification flags feeding the checklist.
cccNonempty records whether the CCC computation produced at least one value
(the source appends the CCC criterion only in that case). -/
structure ScoreFlags where
  trend : Bool
  ni : Bool
  oi : Bool
  ocf : Bool
  rev : Bool
  gm : Bool
  nm : Bool
  roe : Bool
  roic : Bool
  revAr : Bool
  hasPhysicalGoods : Bool
  cccNonempty : Bool
  ccc : Bool
  moat : Bool
  de : Bool
  dsr : Bool
  cr : Bool
  isReit : Bool
  gr : Bool

/-- The ordered checklist built by get_stock_data: the net-income entry falls
back to operating income when net income fails; the CCC entry appears only
for physical-goods entities with computed CCC values; the gearing entry
appears only for REIT-classified entities. -/
def score_criteria (f : ScoreFlags) : List Criterion :=
  [⟨"Historical Trend (20Y)", f.trend⟩]
  ++ (if f.ni then [⟨"Net Income Increasing", true⟩]
      else if f.oi then [⟨"Operating Income Increasing", true⟩]
      else [⟨"Net Income Increasing", false⟩])
  ++ [⟨"Operating Cash Flow Increasing", f.ocf⟩,
      ⟨"Revenue Increasing", f.rev⟩,
      ⟨"Gross Margin Stable/Increasing", f.gm⟩,
      ⟨"Net Margin Stable/Increasing", f.nm⟩,
      ⟨"ROE > 12-15%", f.roe⟩,
      ⟨"ROIC > 12-15%", f.roic⟩,
      ⟨"Revenue > AR or Growing Faster", f.revAr⟩]
  ++ (if f.hasPhysicalGoods && f.cccNonempty then [⟨"CCC Stable/Reducing", f.ccc⟩] else [])
  ++ [⟨"Economic Moat", f.moat⟩,
      ⟨"Debt/EBITDA < 3", f.de⟩,
      ⟨"Debt Servicing Ratio < 30%", f.dsr⟩,
      ⟨"Current Ratio > 1.5", f.cr⟩]
  ++ (if f.isReit then [⟨"Gearing Ratio < 45%", f.gr⟩] else [])

/-- weights_ccc: the weight table for physical-goods entities. -/
def weights_ccc : List (String × ℚ) :=
  [("Historical Trend (20Y)", 15),
   ("Net Income Increasing", 5), ("Operating Income Increasing", 5),
   ("Operating Cash Flow Increasing", 5),
   ("Revenue Increasing", 10),
   ("Gross Margin Stable/Increasing", 10),
   ("Net Margin Stable/Increasing", 5),
   ("ROE > 12-15%", 5),
   ("ROIC > 12-15%", 15),
   ("Revenue > AR or Growing Faster", 1),
   ("CCC Stable/Reducing", 3),
   ("Economic Moat", 20),
   ("Debt/EBITDA < 3", 5),
   ("Debt Servicing Ratio < 30%", 1),
   ("Current Ratio > 1.5", 5)]

/-- weights_reit: the weight table for REIT-classified entities. -/
def weights_reit : List (String × ℚ) :=
  [("Historical Trend (20Y)", 10),
   ("Net Income Increasing", 3), ("Operating Income Increasing", 3),
   ("Operating Cash Flow Increasing", 3),
   ("Revenue Increasing", 3),
   ("Gross Margin Stable/Increasing", 5),
   ("Net Margin Stable/Increasing", 5),
   ("ROE > 12-15%", 10),
   ("ROIC > 12-15%", 15),
   ("Revenue > AR or Growing Faster", 4),
   ("Economic Moat", 5),
   ("Debt/EBITDA < 3", 15),
   ("Debt Servicing Ratio < 30%", 15),
   ("Current Ratio > 1.5", 5),
   ("Gearing Ratio < 45%", 5)]

/-- weights_standard: the weight table for all other entities. -/
def weights_standard : List (String × ℚ) :=
  [("Historical Trend (20Y)", 5),
   ("Net Income Increasing", 10), ("Operating Income Increasing", 10),
   ("Operating Cash Flow Increasing", 10),
   ("Revenue Increasing", 5),
   ("Gross Margin Stable/Increasing", 10),
   ("Net Margin Stable/Increasing", 5),
   ("ROE > 12-15%", 15),
   ("ROIC > 12-15%", 15),
   ("Revenue > AR or Growing Faster", 5),
   ("Economic Moat", 20),
   ("Debt/EBITDA < 3", 5),
   ("Debt Servicing Ratio < 30%", 2),
   ("Current Ratio > 1.5", 3)]

/-- dict.get(name, 0) on a weight table. -/
def lookupWeight (w : List (String × ℚ)) (name : String) : ℚ :=
  (assocLookup w name).getD 0

/-- The lookup-name normalization applied before the weight lookup (each of
the source conditions tests substring containment; the last match wins). -/
def normalizeName (name : String) : String :=
  if strContains name "Operating Income Increasing" then "Operating Income Increasing"
  else if strContains name "Net Income Increasing" then "Net Income Increasing"
  else if strContains name "Historical Trend" then "Historical Trend (20Y)"
  else name

/-- The weight table selected by entity classification. -/
def current_weights (f : ScoreFlags) : List (String × ℚ) :=
  if f.isReit then weights_reit
  else if f.hasPhysicalGoods then weights_ccc
  else weights_standard

/-- The aggregation loop: max accumulates every weight, total only those of
passing criteria. Accumulator is (total_score, max_score). -/
def scoreFold (w : List (String × ℚ)) : List Criterion → ℚ × ℚ → ℚ × ℚ
  | [], acc => acc
  | c :: rest, acc =>
      let wt := lookupWeight w (normalizeName c.name)
      scoreFold w rest (if c.pass then (acc.1 + wt, acc.2 + wt) else (acc.1, acc.2 + wt))

/-- The (total_score, max_score) pair returned for a given set of outcomes. -/
def quality_score (f : ScoreFlags) : ℚ × ℚ :=
  scoreFold (current_weights f) (score_criteria f) (0, 0)

/-! ## Support-level deduplication (main.py lines 402-422) -/

/-- One support-level candidate (the source also carries source/reason
strings, merged wholesale together with price and score). -/
structure SupportLevel where
  price : ℚ
  score : ℚ
  reason : String
deriving DecidableEq

/-- Stable insertion step for descending-by-price order. -/
def insertByPriceDesc (c : SupportLevel) : List SupportLevel → List SupportLevel
  | [] => [c]
  | x :: xs => if x.price ≤ c.price then c :: x :: xs else x :: insertByPriceDesc c xs

/-- support_candidates.sort(key=price, reverse=True): Python sorts are stable,
and stable descending sort is exactly right-to-left insertion keeping earlier
elements in front on ties. -/
def sortByPriceDesc (l : List SupportLevel) : List SupportLevel :=
  l.foldr insertByPriceDesc []

/-- Scan the accepted levels for the first one within 2.5 percent of the
candidate; replace it when the candidate scores higher (dict.update replaces
every field). Returns the updated accepted list and whether a match was
found. In the source the 2.5 percent test divides by the accepted price,
float-style; accepted prices are nonzero in every use. -/
def mergeStep (c : SupportLevel) : List SupportLevel → List SupportLevel × Bool
  | [] => ([], false)
  | ul :: rest =>
      if |c.price - ul.price| / ul.price < 1/40 then
        (if ul.score < c.score then c :: rest else ul :: rest, true)
      else
        let r := mergeStep c rest
        (ul :: r.1, r.2)

/-- The deduplication loop body over the sorted tail. -/
def dedupFold : List SupportLevel → List SupportLevel → List SupportLevel
  | acc, [] => acc
  | acc, c :: rest =>
      let r := mergeStep c acc
      dedupFold (if r.2 then r.1 else r.1 ++ [c]) rest

/-- get_validated_support_levels final selection: sort by price descending,
accept the first, merge the rest, return at most the first 5. -/
def dedup_levels (cands : List SupportLevel) : List SupportLevel :=
  match sortByPriceDesc cands with
  | [] => []
  | first :: rest => (dedupFold [first] rest).take 5

/-! ## Portfolio TWR engine (main.py lines 2085-2233)

Calendar days are modelled as natural numbers 0, 1, 2, ... and a price
history is a list of (day, close) pairs with strictly increasing days
(prices already FX-normalized, as the loop receives them). Comparison-ticker
overlay series are omitted (the comparison list defaults to empty). -/

/-- One buy transaction (flow): ticker, share count, total cost. -/
structure Flow where
  ticker : String
  shares : ℚ
  cost : ℚ

/-- Per-ticker state: held shares, last known price, the cumulative TWR
multiplier and the value at the previous close. -/
@[ext] structure TState where
  shares : ℚ
  lastKnown : ℚ
  twr : ℚ
  vPrev : ℚ
deriving DecidableEq

def initTState : TState := ⟨0, 0, 1, 0⟩

/-- A price history: (day, close) pairs, days strictly increasing. -/
abbrev Hist := List (Nat × ℚ)

/-- Exact price lookup for a day (date in history index, first match). -/
def lookupDay : Hist → Nat → Option ℚ
  | [], _ => none
  | q :: rest, d => if q.1 = d then some q.2 else lookupDay rest d

/-- Backward-padded lookup (get_indexer with method pad): the value at the
latest history day at or before d. -/
def padPrice (h : Hist) (d : Nat) : Option ℚ :=
  ((h.filter (fun q => decide (q.1 ≤ d))).getLast?).map (fun q => q.2)

/-- Price resolution for one held ticker on one day, mirroring the source
chain: exact match (which also refreshes the last known price), else carry
the positive last known price, else pad lookup (also refreshing), else no
price; finally the last resort replaces a zero price with a positive last
known price. Returns (price, updated last known price). -/
def resolvePrice (h : Hist) (lk : ℚ) (d : Nat) : ℚ × ℚ :=
  let step :=
    if h.isEmpty then (0, lk)
    else
      match lookupDay h d with
      | some pr => (pr, pr)
      | none =>
          if 0 < lk then (lk, lk)
          else
            match padPrice h d with
            | some pr => (pr, pr)
            | none => (0, lk)
  if step.1 = 0 ∧ 0 < step.2 then (step.2, step.2) else step

/-- Whole-portfolio state: per-ticker states, portfolio TWR multiplier,
portfolio value at the previous close, and the recorded chart values
((cumulative TWR - 1) * 100 per day, in day order). -/
@[ext] structure PState where
  st : String → TState
  twr : ℚ
  vPrev : ℚ
  chart : List ℚ

def initPState : PState := ⟨fun _ => initTState, 1, 0, []⟩

/-- Start-of-day flow application: add shares, record cost as inflow for the
portfolio and the ticker, and seed the last known price from cost per share
when none is set and shares are positive. Returns the updated states, the
per-ticker inflows and the total inflow. -/
def applyFlows : List Flow → (String → TState) → (String → ℚ) → ℚ →
    (String → TState) × (String → ℚ) × ℚ
  | [], st, infl, tot => (st, infl, tot)
  | f :: rest, st, infl, tot =>
      let s := st f.ticker
      let s1 : TState :=
        { s with
          shares := s.shares + f.shares,
          lastKnown := if s.lastKnown = 0 ∧ 0 < f.shares then f.cost / f.shares
            else s.lastKnown }
      applyFlows rest (fun t => if t = f.ticker then s1 else st t)
        (fun t => if t = f.ticker then infl t + f.cost else infl t) (tot + f.cost)

/-- End-of-day mark to market over the processed tickers: every ticker with
nonzero shares resolves a price (updating its last known price) and
contributes shares times price. Returns the updated states, the per-ticker
end values (0 for tickers without shares) and the total end value. -/
def markToMarket (histMap : String → Hist) (d : Nat) :
    List String → (String → TState) → (String → ℚ) → ℚ →
    (String → TState) × (String → ℚ) × ℚ
  | [], st, vals, tot => (st, vals, tot)
  | t :: rest, st, vals, tot =>
      let s := st t
      if s.shares ≠ 0 then
        let pr := resolvePrice (histMap t) s.lastKnown d
        let s1 : TState := { s with lastKnown := pr.2 }
        let v := s.shares * pr.1
        markToMarket histMap d rest (fun x => if x = t then s1 else st x)
          (fun x => if x = t then v else vals x) (tot + v)
      else
        markToMarket histMap d rest st vals tot

/-- Per-ticker mirror of the return computation: basis is the ticker value at
the previous close plus its inflow; the return is applied only when the basis
exceeds 0.001; the end value is carried forward. -/
def updateTickers : List String → (String → TState) → (String → ℚ) → (String → ℚ) →
    (String → TState)
  | [], st, _, _ => st
  | t :: rest, st, infl, vEndT =>
      let s := st t
      let tb := s.vPrev + infl t
      let s1 : TState :=
        { s with
          twr := if 1/1000 < tb then s.twr * (1 + (vEndT t / tb - 1)) else s.twr,
          vPrev := vEndT t }
      updateTickers rest (fun x => if x = t then s1 else st x) infl vEndT

/-- One simulated calendar day: apply flows at start of day, mark holdings to
market, compute the portfolio return on the basis (previous close plus
inflows, skipped at or below 0.001), record the chart point, run the
per-ticker mirror, and carry end values forward. -/
def dayStep (histMap : String → Hist) (tickers : List String) (flows : List Flow)
    (d : Nat) (p : PState) : PState :=
  let af := applyFlows flows p.st (fun _ => 0) 0
  let mm := markToMarket histMap d tickers af.1 (fun _ => 0) 0
  let vEnd := mm.2.2
  let basis := p.vPrev + af.2.2
  let twr1 := if 1/1000 < basis then p.twr * (1 + (vEnd / basis - 1)) else p.twr
  { st := updateTickers tickers mm.1 af.2.1 mm.2.1,
    twr := twr1,
    vPrev := vEnd,
    chart := p.chart ++ [(twr1 - 1) * 100] }

/-- Run the TWR state machine over days 0, 1, ..., n - 1 (day d takes the
flows dated d). -/
def runDays (histMap : String → Hist) (tickers : List String)
    (flowsByDate : Nat → List Flow) : Nat → PState
  | 0 => initPState
  | n + 1 => dayStep histMap tickers (flowsByDate n) n
      (runDays histMap tickers flowsByDate n)

/-- Flow schedule of a single-ticker portfolio with one buy (ticker "A",
sh shares at total cost, dated day d0). -/
def singleBuyFlows (d0 : Nat) (sh cost : ℚ) : Nat → List Flow :=
  fun d => if d = d0 then [⟨"A", sh, cost⟩] else []

/-- total_twr = (portfolio_twr - 1) * 100 -/
def totalTWR (p : PState) : ℚ := (p.twr - 1) * 100

/-- Per-ticker result map: (twr - 1) * 100. -/
def tickerTWR (p : PState) (t : String) : ℚ := ((p.st t).twr - 1) * 100

/-! ## Theorems -/

theorem us_not_china : strContains "United States" "China" = false := rfl

/-- C10: every DCF-family method result (DFCF, DOCF, DNI differ only in the
base value passed to calculate_dcf_variant) reports an intrinsicValue equal
to max of 0 and (sum of discounted projected values + cash - total debt) /
shares outstanding, hence never negative. -/
theorem dcf_intrinsic_clamped (base cash debt shares eg beta : ℚ) (country : String) :
    dcf_intrinsic base cash debt shares eg beta country =
      max 0 ((pvAux (get_discount_rate beta country) 1
        (future_vals base (growth_rate_1_5 eg) (growth_rate_6_10 eg)
          (growth_rate_11_20 country)) + cash - debt) / shares) ∧
    0 ≤ dcf_intrinsic base cash debt shares eg beta country :=
  ⟨rfl, le_max_left 0 _⟩

/-- C8: the reported percentage difference is price / intrinsic - 1 exactly
when the recommended intrinsic value is positive and 0 otherwise, and the
status label is Overvalued above 15 percent, Undervalued below minus 15
percent, Fairly Valued in between; a nonpositive intrinsic value therefore
yields difference 0 and status Fairly Valued. -/
theorem valuation_status_spec (p iv : ℚ) :
    (0 < iv → diff_percent p iv = p / iv - 1) ∧
    (iv ≤ 0 → diff_percent p iv = 0 ∧
      valuation_status (diff_percent p iv) = "Fairly Valued") ∧
    (valuation_status (diff_percent p iv) = "Overvalued" ↔ 3/20 < diff_percent p iv) ∧
    (valuation_status (diff_percent p iv) = "Undervalued" ↔ diff_percent p iv < -(3/20)) ∧
    (¬ 3/20 < diff_percent p iv → ¬ diff_percent p iv < -(3/20) →
      valuation_status (diff_percent p iv) = "Fairly Valued") := by
  refine ⟨fun h => by simp [diff_percent, h], fun h => ?_, ?_, ?_, fun h1 h2 => ?_⟩
  · have hn : ¬ 0 < iv := not_lt.mpr h
    refine ⟨by simp [diff_percent, hn], ?_⟩
    norm_num [diff_percent, hn, valuation_status]
  · by_cases h1 : 3/20 < diff_percent p iv
    · simp [valuation_status, h1]
    · by_cases h2 : diff_percent p iv < -(3/20) <;> simp [valuation_status, h1, h2]
  · by_cases h1 : 3/20 < diff_percent p iv
    · refine ⟨fun h => ?_, fun h => absurd h (by linarith)⟩
      unfold valuation_status at h
      rw [if_pos h1] at h
      simp at h
    · by_cases h2 : diff_percent p iv < -(3/20) <;> simp [valuation_status, h1, h2]
  · unfold valuation_status
    rw [if_neg h1, if_neg h2]

/-- C8 witness: the characterization instantiated at price 100 and
intrinsic value 50. -/
theorem valuation_status_spec_witness :
    (0 < (50:ℚ) → diff_percent 100 50 = 100 / 50 - 1) ∧
    ((50:ℚ) ≤ 0 → diff_percent 100 50 = 0 ∧
      valuation_status (diff_percent 100 50) = "Fairly Valued") ∧
    (valuation_status (diff_percent 100 50) = "Overvalued" ↔ 3/20 < diff_percent 100 50) ∧
    (valuation_status (diff_percent 100 50) = "Undervalued" ↔ diff_percent 100 50 < -(3/20)) ∧
    (¬ 3/20 < diff_percent 100 50 → ¬ diff_percent 100 50 < -(3/20) →
      valuation_status (diff_percent 100 50) = "Fairly Valued") :=
  valuation_status_spec 100 50

/-- C6 counterexample: an input with a current price but no shares figure at
all (sharesOutstanding and impliedSharesOutstanding both absent) does not
produce the error result: the source coalesces missing shares to 1 with
(info.get("sharesOutstanding") or info.get("impliedSharesOutstanding") or 1)
and proceeds with the valuation, contradicting the claim that a missing
shares-outstanding figure yields status Error and intrinsicValue 0. -/
theorem missing_shares_no_error :
    early_error ⟨some 100, none, none, none⟩ = none ∧
    shares_outstanding ⟨some 100, none, none, none⟩ = 1 :=
  ⟨rfl, rfl⟩

/-- C6 amended: the early error result (status Error, intrinsicValue 0) fires
exactly when the effective current price is 0 (currentPrice and
regularMarketPrice both absent or zero); the effective shares-outstanding
figure is never 0 because it defaults to 1, so a missing shares figure alone
never triggers the error. -/
theorem early_error_iff (i : ValInfo) :
    (early_error i = some ("Error", 0) ↔ current_price i = 0) ∧
    shares_outstanding i ≠ 0 := by
  have hone : (1 : ℚ) ≠ 0 := by norm_num
  have hsh : shares_outstanding i ≠ 0 := by
    rcases i with ⟨cp, rmp, so, iso⟩
    unfold shares_outstanding pyOr
    rcases so with _ | x <;> rcases iso with _ | y <;> simp
    · by_cases hy : y = 0 <;> simp [hy, hone, hy]
    · by_cases hx : x = 0 <;> simp [hx, hone]
    · by_cases hx : x = 0 <;> by_cases hy : y = 0 <;> simp [hx, hy, hone]
  refine ⟨?_, hsh⟩
  unfold early_error
  by_cases hp : current_price i = 0 <;> simp [hp, hsh]

/-- C6 witness: the amended characterization applied at an input with both
price fields absent: the error fires. -/
theorem early_error_iff_witness :
    early_error ⟨none, none, some 5, none⟩ = some ("Error", 0) :=
  ((early_error_iff ⟨none, none, some 5, none⟩).1).mpr rfl

theorem assocLookup_map {α β : Type} (g : α → β) (l : List (String × α)) (name : String) :
    assocLookup (l.map (fun r => (r.1, g r.2))) name = (assocLookup l name).map g := by
  induction l with
  | nil => rfl
  | cons r rest ih => by_cases h : r.1 = name <;> simp [assocLookup, h, ih]

theorem assocLookup_ne_nil {α : Type} {l : List (String × α)} {name : String} {v : α}
    (h : assocLookup l name = some v) : l.isEmpty = false := by
  cases l with
  | nil => simp [assocLookup] at h
  | cons r rest => rfl

/-- C2: a quarterly flow table with fewer than 4 columns contributes an empty
TTM snapshot (every metric absent, never partially summed); with at least 4
columns every row contributes the sum of its 4 most recent columns; the
quarterly balance sheet contributes the single most recent column per row,
and an empty snapshot when it has no columns. -/
theorem ttm_aggregation (t : QTable) :
    (t.ncols < 4 → ttm_flow t = []) ∧
    (4 ≤ t.ncols → ∀ name vals, rowLookup t name = some vals →
      ttmLookup (ttm_flow t) name = some (vals.take 4).sum) ∧
    (t.ncols = 0 → ttm_pointInTime t = []) ∧
    (0 < t.ncols → ∀ name vals, rowLookup t name = some vals →
      ttmLookup (ttm_pointInTime t) name = some (vals.headD 0)) := by
  refine ⟨fun h => by simp [ttm_flow, h], fun h name vals hrow => ?_,
    fun h => by simp [ttm_pointInTime, h], fun h name vals hrow => ?_⟩
  · unfold rowLookup at hrow
    have hne : t.rows.isEmpty = false := assocLookup_ne_nil hrow
    have h4 : ¬ t.ncols < 4 := not_lt.mpr h
    unfold ttm_flow ttmLookup
    rw [if_neg (by simp [hne, h4])]
    rw [assocLookup_map (fun vals => (vals.take 4).sum) t.rows name]
    rw [hrow]
    rfl
  · unfold rowLookup at hrow
    have hne : t.rows.isEmpty = false := assocLookup_ne_nil hrow
    have h0 : ¬ t.ncols = 0 := Nat.pos_iff_ne_zero.mp h
    unfold ttm_pointInTime ttmLookup
    rw [if_neg (by simp [hne, h0])]
    rw [assocLookup_map (fun vals => vals.headD 0) t.rows name]
    rw [hrow]
    rfl

/-- C2 witness: the aggregation rules evaluated on concrete tables: a 3-column
flow table yields an empty snapshot, a 5-column flow table sums the 4 most
recent columns (1+2+3+4), a 0-column balance sheet yields an empty snapshot,
and a 2-column balance sheet keeps the most recent value. -/
theorem ttm_aggregation_witness :
    ttm_flow ⟨3, [("Total Revenue", [1, 2, 3])]⟩ = [] ∧
    ttmLookup (ttm_flow ⟨5, [("Total Revenue", [1, 2, 3, 4, 5])]⟩) "Total Revenue" =
      some 10 ∧
    ttm_pointInTime ⟨0, []⟩ = [] ∧
    ttmLookup (ttm_pointInTime ⟨2, [("Inventory", [7, 9])]⟩) "Inventory" = some 7 := by
  refine ⟨(ttm_aggregation _).1 (by norm_num), ?_, (ttm_aggregation _).2.2.1 rfl, ?_⟩
  · have h := (ttm_aggregation ⟨5, [("Total Revenue", [1, 2, 3, 4, 5])]⟩).2.1
      (by norm_num) "Total Revenue" [1, 2, 3, 4, 5] rfl
    rw [h]
    norm_num [List.take]
  · exact (ttm_aggregation ⟨2, [("Inventory", [7, 9])]⟩).2.2.2 (by norm_num)
      "Inventory" [7, 9] rfl

/-- C9: support-level deduplication returns at most 5 levels, and on the
candidate prices 100, 101, 102, 150 the three close prices collapse into a
single retained level (the highest-scored one, here at 101) while 150 is
kept as a separate level. -/
theorem support_dedup :
    (∀ cands : List SupportLevel, (dedup_levels cands).length ≤ 5) ∧
    dedup_levels [⟨100, 1, "Price Action"⟩, ⟨101, 5, "SMA Support"⟩,
        ⟨102, 2, "Price Action"⟩, ⟨150, 1, "Price Action"⟩] =
      [⟨150, 1, "Price Action"⟩, ⟨101, 5, "SMA Support"⟩] := by
  constructor
  · intro cands
    unfold dedup_levels
    rcases sortByPriceDesc cands with _ | ⟨first, rest⟩
    · simp
    · simp
  · norm_num [dedup_levels, sortByPriceDesc, insertByPriceDesc, dedupFold, mergeStep]

theorem china_table_pos (b : ℚ) : 0 < china_table b := by
  unfold china_table
  split_ifs <;> norm_num

theorem us_table_pos (b : ℚ) : 0 < us_table b := by
  unfold us_table
  split_ifs <;> norm_num

theorem discount_rate_pos (beta : ℚ) (country : String) :
    0 < get_discount_rate beta country := by
  unfold get_discount_rate
  split_ifs
  · exact china_table_pos beta
  · exact us_table_pos beta

theorem china_table_eval (b : ℚ) :
    (b < 4/5 ∧ china_table b = 8/100) ∨
    (4/5 ≤ b ∧ b < 1 ∧ china_table b = 9/100) ∨
    (1 ≤ b ∧ b < 6/5 ∧ china_table b = 10/100) ∨
    (6/5 ≤ b ∧ china_table b = 11/100) := by
  by_cases h1 : b < 4/5
  · exact Or.inl ⟨h1, by simp only [china_table, if_pos h1]⟩
  by_cases h2 : b < 1
  · exact Or.inr (Or.inl ⟨not_lt.mp h1, h2,
      by simp only [china_table, if_neg h1, if_pos h2]⟩)
  by_cases h3 : b < 6/5
  · exact Or.inr (Or.inr (Or.inl ⟨not_lt.mp h2, h3,
      by simp only [china_table, if_neg h1, if_neg h2, if_pos h3]⟩))
  · exact Or.inr (Or.inr (Or.inr ⟨not_lt.mp h3,
      by simp only [china_table, if_neg h1, if_neg h2, if_neg h3]⟩))

theorem us_table_eval (b : ℚ) :
    (b < 4/5 ∧ us_table b = 54/1000) ∨
    (4/5 ≤ b ∧ b < 19/20 ∧ us_table b = 57/1000) ∨
    (19/20 ≤ b ∧ b < 21/20 ∧ us_table b = 60/1000) ∨
    (21/20 ≤ b ∧ b < 23/20 ∧ us_table b = 63/1000) ∨
    (23/20 ≤ b ∧ b < 5/4 ∧ us_table b = 66/1000) ∨
    (5/4 ≤ b ∧ b < 27/20 ∧ us_table b = 69/1000) ∨
    (27/20 ≤ b ∧ b < 29/20 ∧ us_table b = 72/1000) ∨
    (29/20 ≤ b ∧ b < 31/20 ∧ us_table b = 75/1000) ∨
    (31/20 ≤ b ∧ us_table b = 78/1000) := by
  by_cases h1 : b < 4/5
  · exact Or.inl ⟨h1, by simp only [us_table, if_pos h1]⟩
  by_cases h2 : b < 19/20
  · exact Or.inr (Or.inl ⟨not_lt.mp h1, h2,
      by simp only [us_table, if_neg h1, if_pos h2]⟩)
  by_cases h3 : b < 21/20
  · exact Or.inr (Or.inr (Or.inl ⟨not_lt.mp h2, h3,
      by simp only [us_table, if_neg h1, if_neg h2, if_pos h3]⟩))
  by_cases h4 : b < 23/20
  · exact Or.inr (Or.inr (Or.inr (Or.inl ⟨not_lt.mp h3, h4,
      by simp only [us_table, if_neg h1, if_neg h2, if_neg h3, if_pos h4]⟩)))
  by_cases h5 : b < 5/4
  · exact Or.inr (Or.inr (Or.inr (Or.inr (Or.inl ⟨not_lt.mp h4, h5,
      by simp only [us_table, if_neg h1, if_neg h2, if_neg h3, if_neg h4, if_pos h5]⟩))))
  by_cases h6 : b < 27/20
  · exact Or.inr (Or.inr (Or.inr (Or.inr (Or.inr (Or.inl ⟨not_lt.mp h5, h6,
      by simp only [us_table, if_neg h1, if_neg h2, if_neg h3, if_neg h4, if_neg h5,
        if_pos h6]⟩)))))
  by_cases h7 : b < 29/20
  · exact Or.inr (Or.inr (Or.inr (Or.inr (Or.inr (Or.inr (Or.inl ⟨not_lt.mp h6, h7,
      by simp only [us_table, if_neg h1, if_neg h2, if_neg h3, if_neg h4, if_neg h5,
        if_neg h6, if_pos h7]⟩))))))
  by_cases h8 : b < 31/20
  · exact Or.inr (Or.inr (Or.inr (Or.inr (Or.inr (Or.inr (Or.inr (Or.inl
      ⟨not_lt.mp h7, h8,
      by simp only [us_table, if_neg h1, if_neg h2, if_neg h3, if_neg h4, if_neg h5,
        if_neg h6, if_neg h7, if_pos h8]⟩)))))))
  · exact Or.inr (Or.inr (Or.inr (Or.inr (Or.inr (Or.inr (Or.inr (Or.inr
      ⟨not_lt.mp h8,
      by simp only [us_table, if_neg h1, if_neg h2, if_neg h3, if_neg h4, if_neg h5,
        if_neg h6, if_neg h7, if_neg h8]⟩)))))))

theorem china_table_mono {b1 b2 : ℚ} (h : b1 ≤ b2) :
    china_table b1 ≤ china_table b2 := by
  rcases china_table_eval b1 with ⟨ha, he⟩ | ⟨ha, hb, he⟩ | ⟨ha, hb, he⟩ | ⟨ha, he⟩ <;>
    rcases china_table_eval b2 with ⟨ha2, he2⟩ | ⟨ha2, hb2, he2⟩ | ⟨ha2, hb2, he2⟩ |
      ⟨ha2, he2⟩ <;>
    rw [he, he2] <;> linarith

set_option maxHeartbeats 1000000 in
theorem us_table_mono {b1 b2 : ℚ} (h : b1 ≤ b2) :
    us_table b1 ≤ us_table b2 := by
  rcases us_table_eval b1 with ⟨ha, he⟩ | ⟨ha, hb, he⟩ | ⟨ha, hb, he⟩ | ⟨ha, hb, he⟩ |
    ⟨ha, hb, he⟩ | ⟨ha, hb, he⟩ | ⟨ha, hb, he⟩ | ⟨ha, hb, he⟩ | ⟨ha, he⟩ <;>
    rcases us_table_eval b2 with ⟨ha2, he2⟩ | ⟨ha2, hb2, he2⟩ | ⟨ha2, hb2, he2⟩ |
      ⟨ha2, hb2, he2⟩ | ⟨ha2, hb2, he2⟩ | ⟨ha2, hb2, he2⟩ | ⟨ha2, hb2, he2⟩ |
      ⟨ha2, hb2, he2⟩ | ⟨ha2, he2⟩ <;>
    rw [he, he2] <;> linarith

theorem discount_rate_mono {b1 b2 : ℚ} (country : String) (h : b1 ≤ b2) :
    get_discount_rate b1 country ≤ get_discount_rate b2 country := by
  unfold get_discount_rate
  by_cases hc : strContains country "China" = true
  · simp only [if_pos hc]
    exact china_table_mono h
  · simp only [if_neg hc]
    exact us_table_mono h

theorem growth_1_5_lb (eg : ℚ) : 0 ≤ 1 + growth_rate_1_5 eg := by
  have h : -(1/10) ≤ growth_rate_1_5 eg := le_min (le_max_right _ _) (by norm_num)
  linarith

theorem growth_6_10_lb (eg : ℚ) : 0 ≤ 1 + growth_rate_6_10 eg := by
  have h1 : -(1/10) ≤ growth_rate_1_5 eg := le_min (le_max_right _ _) (by norm_num)
  have h : -(1/10) ≤ growth_rate_6_10 eg := le_min h1 (by norm_num)
  linarith

theorem growth_11_20_lb (country : String) : 0 ≤ 1 + growth_rate_11_20 country := by
  unfold growth_rate_11_20
  split_ifs <;> norm_num

theorem growSteps_nonneg (g : ℚ) (hg : 0 ≤ 1 + g) (n : Nat) :
    ∀ (c : ℚ), 0 ≤ c → (∀ v ∈ (growSteps g n c).1, 0 ≤ v) ∧ 0 ≤ (growSteps g n c).2 := by
  induction n with
  | zero =>
      intro c hc
      exact ⟨by simp [growSteps], by simpa [growSteps] using hc⟩
  | succ n ih =>
      intro c hc
      have hc1 : 0 ≤ c * (1 + g) := mul_nonneg hc hg
      have h := ih (c * (1 + g)) hc1
      refine ⟨?_, by simpa [growSteps] using h.2⟩
      intro v hv
      simp only [growSteps, List.mem_cons] at hv
      rcases hv with hv | hv
      · exact hv ▸ hc1
      · exact h.1 v hv

theorem future_vals_nonneg (base g15 g610 g1120 : ℚ) (hbase : 0 ≤ base)
    (h15 : 0 ≤ 1 + g15) (h610 : 0 ≤ 1 + g610) (h1120 : 0 ≤ 1 + g1120) :
    ∀ v ∈ future_vals base g15 g610 g1120, 0 ≤ v := by
  intro v hv
  have ha := growSteps_nonneg g15 h15 5 base hbase
  have hb := growSteps_nonneg g610 h610 5 (growSteps g15 5 base).2 ha.2
  have hc := growSteps_nonneg g1120 h1120 10 (growSteps g610 5 (growSteps g15 5 base).2).2 hb.2
  simp only [future_vals, List.mem_append] at hv
  rcases hv with (hv | hv) | hv
  · exact ha.1 v hv
  · exact hb.1 v hv
  · exact hc.1 v hv

theorem pvAux_anti {r1 r2 : ℚ} (h1 : 0 < 1 + r1) (h12 : r1 ≤ r2) :
    ∀ (l : List ℚ) (k : Nat), (∀ v ∈ l, 0 ≤ v) → pvAux r2 k l ≤ pvAux r1 k l := by
  intro l
  induction l with
  | nil => intro k _; simp [pvAux]
  | cons v rest ih =>
      intro k hv
      have hvn : 0 ≤ v := hv v (List.mem_cons_self _ _)
      have hrest := ih (k + 1) (fun x hx => hv x (List.mem_cons_of_mem _ hx))
      have hpow1 : (0:ℚ) < (1 + r1) ^ k := pow_pos h1 k
      have hpow : (1 + r1) ^ k ≤ (1 + r2) ^ k := pow_le_pow_left₀ h1.le (by linarith) k
      have hterm : v / (1 + r2) ^ k ≤ v / (1 + r1) ^ k :=
        div_le_div_of_nonneg_left hvn hpow1 hpow
      simp only [pvAux]
      exact add_le_add hterm hrest

/-- C3 counterexample: the claim fails for negative base values. With base
value -1 (for example a negative trailing net income), cash 100, no debt,
1 share, growth input 0 and country United States, raising beta from 0.7 to
1.6 (crossing every breakpoint of the non-China table) raises the discount
rate, which makes the negative projected values less negative and therefore
raises the intrinsic value instead of lowering it. -/
theorem dcf_beta_cex :
    (7/10 : ℚ) < 8/5 ∧
    dcf_intrinsic (-1) 100 0 1 0 (7/10) "United States" <
      dcf_intrinsic (-1) 100 0 1 0 (8/5) "United States" := by
  constructor
  · norm_num
  · norm_num [dcf_intrinsic, get_discount_rate, us_table, us_not_china, growth_rate_1_5,
      growth_rate_6_10, growth_rate_11_20, future_vals, growSteps, pvAux]

/-- C3 amended: for a fixed input snapshot, the discount rate is monotone
nondecreasing in beta (for any country table), and, provided the base value
of the DCF variant is nonnegative and shares outstanding are positive, each
DCF-family intrinsic value at the larger beta is less than or equal to the
value at the smaller beta. (The claim as stated is refuted for negative base
values by the counterexample.) -/
theorem dcf_beta_antitone (b1 b2 base cash debt shares eg : ℚ) (country : String)
    (hb : b1 ≤ b2) (hbase : 0 ≤ base) (hsh : 0 < shares) :
    get_discount_rate b1 country ≤ get_discount_rate b2 country ∧
    dcf_intrinsic base cash debt shares eg b2 country ≤
      dcf_intrinsic base cash debt shares eg b1 country := by
  refine ⟨discount_rate_mono country hb, ?_⟩
  have hr1 : 0 < 1 + get_discount_rate b1 country := by
    have := discount_rate_pos b1 country
    linarith
  have hfv : ∀ v ∈ future_vals base (growth_rate_1_5 eg) (growth_rate_6_10 eg)
      (growth_rate_11_20 country), 0 ≤ v :=
    future_vals_nonneg base _ _ _ hbase (growth_1_5_lb eg) (growth_6_10_lb eg)
      (growth_11_20_lb country)
  have hpv := pvAux_anti hr1 (discount_rate_mono country hb) _ 1 hfv
  unfold dcf_intrinsic
  refine max_le_max le_rfl ?_
  rw [div_le_div_iff_of_pos_right hsh]
  linarith

/-- C3 witness: the amended monotonicity applied at betas 0.9 and 1.3 (either
side of several breakpoints of the default table) with base 1, cash 2,
debt 3, 1 share and growth input 1/10. -/
theorem dcf_beta_antitone_witness :
    get_discount_rate (9/10) "United States" ≤ get_discount_rate (13/10) "United States" ∧
    dcf_intrinsic 1 2 3 1 (1/10) (13/10) "United States" ≤
      dcf_intrinsic 1 2 3 1 (1/10) (9/10) "United States" :=
  dcf_beta_antitone (9/10) (13/10) 1 2 3 1 (1/10) "United States"
    (by norm_num) (by norm_num) (by norm_num)

theorem scoreFold_eq (w : List (String × ℚ)) (l : List Criterion) (acc : ℚ × ℚ) :
    scoreFold w l acc =
      (acc.1 + ((l.filter (fun c => c.pass)).map
          (fun c => lookupWeight w (normalizeName c.name))).sum,
       acc.2 + (l.map (fun c => lookupWeight w (normalizeName c.name))).sum) := by
  induction l generalizing acc with
  | nil => simp [scoreFold]
  | cons c rest ih =>
      by_cases h : c.pass
      · simp [scoreFold, h, ih, List.filter_cons, add_assoc]
      · simp [scoreFold, h, ih, List.filter_cons, add_assoc]

/-- C5: the score is aggregated with the weight table selected by the entity
classification (REIT, physical-goods, standard); the returned max field is
exactly the sum of the weights of the criteria present in the entity
checklist, the returned total is the sum of the weights of the passing
criteria, and the Gearing Ratio criterion is present exactly for
REIT-classified entities. -/
theorem quality_score_spec (f : ScoreFlags) :
    (quality_score f).2 = ((score_criteria f).map
        (fun c => lookupWeight (current_weights f) (normalizeName c.name))).sum ∧
    (quality_score f).1 = (((score_criteria f).filter (fun c => c.pass)).map
        (fun c => lookupWeight (current_weights f) (normalizeName c.name))).sum ∧
    ("Gearing Ratio < 45%" ∈ (score_criteria f).map (fun c => c.name) ↔
      f.isReit = true) := by
  refine ⟨?_, ?_, ?_⟩
  · rw [quality_score, scoreFold_eq]
    simp
  · rw [quality_score, scoreFold_eq]
    simp
  · cases hr : f.isReit <;> cases hni : f.ni <;> cases hoi : f.oi <;>
      cases hpg : f.hasPhysicalGoods <;> cases hcc : f.cccNonempty <;>
      simp [score_criteria, hr, hni, hoi, hpg, hcc]

theorem lookupDay_filter (h : Hist) (N d : Nat) (hd : d ≤ N) :
    lookupDay (h.filter (fun q => decide (q.1 ≤ N))) d = lookupDay h d := by
  induction h with
  | nil => rfl
  | cons q rest ih =>
      by_cases hq : q.1 = d
      · have hN : q.1 ≤ N := by omega
        simp [List.filter_cons, hN, hd, lookupDay, hq]
      · by_cases hN : q.1 ≤ N
        · simp [List.filter_cons, hN, lookupDay, hq, ih]
        · simp [List.filter_cons, hN, lookupDay, hq, ih]

theorem padPrice_filter (h : Hist) (N d : Nat) (hd : d ≤ N) :
    padPrice (h.filter (fun q => decide (q.1 ≤ N))) d = padPrice h d := by
  have hff : (h.filter (fun q => decide (q.1 ≤ N))).filter (fun q => decide (q.1 ≤ d)) =
      h.filter (fun q => decide (q.1 ≤ d)) := by
    rw [List.filter_filter]
    apply List.filter_congr
    intro a _
    by_cases had : a.1 ≤ d
    · have haN : a.1 ≤ N := le_trans had hd
      simp [had, haN]
    · simp [had]
  unfold padPrice
  rw [hff]

theorem resolvePrice_filter (h : Hist) (lk : ℚ) (N d : Nat) (hd : d ≤ N) :
    resolvePrice (h.filter (fun q => decide (q.1 ≤ N))) lk d = resolvePrice h lk d := by
  rcases h with _ | ⟨q, rest⟩
  · rfl
  · by_cases hef : ((q :: rest).filter (fun q => decide (q.1 ≤ N))).isEmpty
    · have hfe : (q :: rest).filter (fun q => decide (q.1 ≤ N)) = [] :=
        List.isEmpty_iff.mp hef
      have hl : lookupDay (q :: rest) d = none := by
        rw [← lookupDay_filter (q :: rest) N d hd, hfe]
        rfl
      have hp : padPrice (q :: rest) d = none := by
        rw [← padPrice_filter (q :: rest) N d hd, hfe]
        rfl
      unfold resolvePrice
      rw [hfe, hl, hp]
      by_cases hlk : 0 < lk
      · simp [hlk, ne_of_gt hlk]
      · simp [hlk]
    · unfold resolvePrice
      rw [lookupDay_filter (q :: rest) N d hd, padPrice_filter (q :: rest) N d hd]
      rw [Bool.eq_false_iff.mpr hef]
      simp

theorem markToMarket_agree (h1 h2 : String → Hist) (N d : Nat) (hd : d ≤ N)
    (hag : ∀ t, (h1 t).filter (fun q => decide (q.1 ≤ N)) =
      (h2 t).filter (fun q => decide (q.1 ≤ N))) (ts : List String) :
    ∀ st vals tot, markToMarket h1 d ts st vals tot = markToMarket h2 d ts st vals tot := by
  induction ts with
  | nil => intro st vals tot; rfl
  | cons t rest ih =>
      intro st vals tot
      have hres : resolvePrice (h1 t) (st t).lastKnown d =
          resolvePrice (h2 t) (st t).lastKnown d := by
        rw [← resolvePrice_filter (h1 t) (st t).lastKnown N d hd, hag t,
          resolvePrice_filter (h2 t) (st t).lastKnown N d hd]
      by_cases hs : (st t).shares ≠ 0
      · simp only [markToMarket, if_pos hs, hres]
        exact ih _ _ _
      · simp only [markToMarket, if_neg hs]
        exact ih _ _ _

theorem dayStep_agree (h1 h2 : String → Hist) (N d : Nat) (hd : d ≤ N)
    (hag : ∀ t, (h1 t).filter (fun q => decide (q.1 ≤ N)) =
      (h2 t).filter (fun q => decide (q.1 ≤ N)))
    (tickers : List String) (flows : List Flow) (p : PState) :
    dayStep h1 tickers flows d p = dayStep h2 tickers flows d p := by
  simp only [dayStep]
  rw [markToMarket_agree h1 h2 N d hd hag tickers _ _ _]

/-- C1: the TWR day loop is look-ahead-free. If two price-history maps agree
on all entries dated on or before day N (for every ticker), then the entire
engine state after simulating days 0 through N — in particular every daily
return applied to the TWR multiplier and every recorded chart value up to
and including day N — is identical. Prices dated after day N can never
change an earlier chart point. -/
theorem twr_no_lookahead (h1 h2 : String → Hist) (tickers : List String)
    (flowsByDate : Nat → List Flow) (N : Nat)
    (hag : ∀ t, (h1 t).filter (fun q => decide (q.1 ≤ N)) =
      (h2 t).filter (fun q => decide (q.1 ≤ N))) :
    runDays h1 tickers flowsByDate (N + 1) = runDays h2 tickers flowsByDate (N + 1) := by
  have main : ∀ k, k ≤ N + 1 →
      runDays h1 tickers flowsByDate k = runDays h2 tickers flowsByDate k := by
    intro k
    induction k with
    | zero => intro _; rfl
    | succ n ih =>
        intro hk
        have hn : n ≤ N := by omega
        simp only [runDays]
        rw [ih (by omega), dayStep_agree h1 h2 N n hn hag tickers _ _]
  exact main (N + 1) le_rfl

/-- C1 witness: a two-day setting where the second history carries a far-away
day-2 price (500 instead of 100) that the first history lacks; the charts for
days 0 and 1 (the whole run up to day 1) coincide. -/
theorem twr_no_lookahead_witness :
    runDays (fun t => if t = "A" then [(0, (100:ℚ)), (1, 100), (2, 500)] else []) ["A"]
        (singleBuyFlows 0 10 1000) 2 =
      runDays (fun t => if t = "A" then [(0, (100:ℚ)), (1, 100)] else []) ["A"]
        (singleBuyFlows 0 10 1000) 2 := by
  apply twr_no_lookahead _ _ _ _ 1
  intro t
  by_cases h : t = "A" <;> simp [h, List.filter]

theorem resolvePrice_exact {h : Hist} {d : Nat} {pr : ℚ} (he : lookupDay h d = some pr)
    (lk : ℚ) : resolvePrice h lk d = (pr, pr) := by
  have hne : h.isEmpty = false := by
    cases h with
    | nil => simp [lookupDay] at he
    | cons q rest => rfl
  have hcond : ¬ (pr = 0 ∧ 0 < pr) := by
    rintro ⟨h0, hp⟩
    rw [h0] at hp
    exact lt_irrefl 0 hp
  unfold resolvePrice
  rw [he, hne]
  simp [hcond]

theorem twr_step_one {x : ℚ} :
    (if 1/1000 < x then 1 * (1 + (x / x - 1)) else 1) = 1 := by
  by_cases hx : 1/1000 < x
  · have hx0 : x ≠ 0 := ne_of_gt (lt_trans (by norm_num) hx)
    rw [if_pos hx, div_self hx0]
    ring
  · rw [if_neg hx]

theorem twr_flat_invariant (hm : String → Hist) (N d0 : Nat) (sh p : ℚ) (hd0 : d0 ≤ N)
    (hflat : ∀ d, d ≤ N → lookupDay (hm "A") d = some p) :
    ∀ k, k ≤ N + 1 →
      runDays hm ["A"] (singleBuyFlows d0 sh (sh * p)) k =
        { st := fun t => if t = "A" then
              { shares := if d0 < k then sh else 0,
                lastKnown := if d0 < k ∧ sh ≠ 0 then p else 0,
                twr := 1,
                vPrev := if d0 < k then sh * p else 0 }
            else initTState,
          twr := 1,
          vPrev := if d0 < k then sh * p else 0,
          chart := List.replicate k 0 } := by
  intro k
  induction k with
  | zero =>
      intro _
      have h0 : ¬ d0 < 0 := by omega
      simp only [runDays, initPState]
      refine PState.ext ?_ rfl ?_ rfl
      · funext t
        by_cases ht : t = "A" <;> simp [initTState, ht, h0]
      · simp [h0]
  | succ k ih =>
      intro hk
      have hkN : k ≤ N := by omega
      have hik := ih (by omega)
      simp only [runDays, hik]
      rcases Nat.lt_trichotomy k d0 with hlt | heq | hgt
      · -- a day strictly before the buy: no flows, no shares, everything flat at 0
        have hne : k ≠ d0 := by omega
        have hd0k : ¬ d0 < k := by omega
        have hd0k1 : ¬ d0 < k + 1 := by omega
        refine PState.ext ?_ ?_ ?_ ?_
        · funext t
          by_cases ht : t = "A" <;>
            simp [dayStep, singleBuyFlows, hne, applyFlows, markToMarket, updateTickers,
              hd0k, hd0k1, initTState, ht]
        · norm_num [dayStep, singleBuyFlows, hne, applyFlows, markToMarket, updateTickers,
            hd0k, hd0k1, initTState]
        · norm_num [dayStep, singleBuyFlows, hne, applyFlows, markToMarket, updateTickers,
            hd0k, hd0k1, initTState]
        · norm_num [dayStep, singleBuyFlows, hne, applyFlows, markToMarket, updateTickers,
            hd0k, hd0k1, initTState, List.replicate_succ']
      · -- the day of the buy
        subst heq
        have hd0k : ¬ k < k := by omega
        have hd0k1 : k < k + 1 := by omega
        have hres := resolvePrice_exact (hflat k hkN)
        by_cases hsh : sh = 0
        · subst hsh
          refine PState.ext ?_ ?_ ?_ ?_
          · funext t
            by_cases ht : t = "A" <;>
              norm_num [dayStep, singleBuyFlows, applyFlows, markToMarket, updateTickers,
                hd0k, hd0k1, initTState, ht]
          · norm_num [dayStep, singleBuyFlows, applyFlows, markToMarket, updateTickers,
              hd0k, hd0k1, initTState]
          · norm_num [dayStep, singleBuyFlows, applyFlows, markToMarket, updateTickers,
              hd0k, hd0k1, initTState]
          · norm_num [dayStep, singleBuyFlows, applyFlows, markToMarket, updateTickers,
              hd0k, hd0k1, initTState, List.replicate_succ']
        · refine PState.ext ?_ ?_ ?_ ?_
          · funext t
            by_cases ht : t = "A" <;>
              simp [dayStep, singleBuyFlows, applyFlows, markToMarket, updateTickers,
                hd0k, hd0k1, initTState, ht, hsh, hres] <;>
              (intro h; exact div_self (ne_of_gt (lt_trans (by norm_num) h)))
          · simp [dayStep, singleBuyFlows, applyFlows, markToMarket, updateTickers,
              hd0k, hd0k1, initTState, hsh, hres] <;>
              (intro h; exact div_self (ne_of_gt (lt_trans (by norm_num) h)))
          · simp [dayStep, singleBuyFlows, applyFlows, markToMarket, updateTickers,
              hd0k, hd0k1, initTState, hsh, hres]
          · simp [dayStep, singleBuyFlows, applyFlows, markToMarket, updateTickers,
              hd0k, hd0k1, initTState, hsh, hres, List.replicate_succ']
            split_ifs with h
            · rw [div_self (ne_of_gt (lt_trans (by norm_num) h))]
              ring
            · ring
      · -- a day after the buy: shares held, price flat, zero return
        have hne : k ≠ d0 := by omega
        have hd0k : d0 < k := hgt
        have hd0k1 : d0 < k + 1 := by omega
        have hres := resolvePrice_exact (hflat k hkN)
        by_cases hsh : sh = 0
        · subst hsh
          refine PState.ext ?_ ?_ ?_ ?_
          · funext t
            by_cases ht : t = "A" <;>
              norm_num [dayStep, singleBuyFlows, hne, applyFlows, markToMarket,
                updateTickers, hd0k, hd0k1, initTState, ht]
          · norm_num [dayStep, singleBuyFlows, hne, applyFlows, markToMarket,
              updateTickers, hd0k, hd0k1, initTState]
          · norm_num [dayStep, singleBuyFlows, hne, applyFlows, markToMarket,
              updateTickers, hd0k, hd0k1, initTState]
          · norm_num [dayStep, singleBuyFlows, hne, applyFlows, markToMarket,
              updateTickers, hd0k, hd0k1, initTState, List.replicate_succ']
        · refine PState.ext ?_ ?_ ?_ ?_
          · funext t
            by_cases ht : t = "A" <;>
              simp [dayStep, singleBuyFlows, hne, applyFlows, markToMarket, updateTickers,
                hd0k, hd0k1, initTState, ht, hsh, hres] <;>
              (intro h; exact div_self (ne_of_gt (lt_trans (by norm_num) h)))
          · simp [dayStep, singleBuyFlows, hne, applyFlows, markToMarket, updateTickers,
              hd0k, hd0k1, initTState, hsh, hres] <;>
              (intro h; exact div_self (ne_of_gt (lt_trans (by norm_num) h)))
          · simp [dayStep, singleBuyFlows, hne, applyFlows, markToMarket, updateTickers,
              hd0k, hd0k1, initTState, hsh, hres]
          · simp [dayStep, singleBuyFlows, hne, applyFlows, markToMarket, updateTickers,
              hd0k, hd0k1, initTState, hsh, hres, List.replicate_succ']
            split_ifs with h
            · rw [div_self (ne_of_gt (lt_trans (by norm_num) h))]
              ring
            · ring

/-- C7 amended: for a single-ticker portfolio with one buy of sh shares whose
total cost equals sh times the flat price p (a buy at the market price), with
the price series carrying the same price p on every simulated day, the engine
returns total_twr 0, every chart value 0, and per-ticker TWR 0 (exactly, in
rational arithmetic). The claim as stated, without the cost = shares x price
proviso, is refuted by the counterexample below. -/
theorem twr_flat (hm : String → Hist) (N d0 : Nat) (sh p : ℚ) (hd0 : d0 ≤ N)
    (hflat : ∀ d, d ≤ N → lookupDay (hm "A") d = some p) :
    totalTWR (runDays hm ["A"] (singleBuyFlows d0 sh (sh * p)) (N + 1)) = 0 ∧
    (runDays hm ["A"] (singleBuyFlows d0 sh (sh * p)) (N + 1)).chart =
      List.replicate (N + 1) 0 ∧
    tickerTWR (runDays hm ["A"] (singleBuyFlows d0 sh (sh * p)) (N + 1)) "A" = 0 := by
  have h := twr_flat_invariant hm N d0 sh p hd0 hflat (N + 1) le_rfl
  rw [h]
  refine ⟨by norm_num [totalTWR], rfl, by norm_num [tickerTWR]⟩

/-- C7 witness: the flat-price scenario of the spec: one buy of 10 shares at
total cost 1000 = 10 x 100 on day 1, price flat at 100 on days 0 through 2. -/
theorem twr_flat_witness :
    totalTWR (runDays (fun t => if t = "A" then [(0, (100:ℚ)), (1, 100), (2, 100)] else [])
        ["A"] (singleBuyFlows 1 10 (10 * 100)) 3) = 0 ∧
    (runDays (fun t => if t = "A" then [(0, (100:ℚ)), (1, 100), (2, 100)] else [])
        ["A"] (singleBuyFlows 1 10 (10 * 100)) 3).chart = List.replicate 3 0 ∧
    tickerTWR (runDays (fun t => if t = "A" then [(0, (100:ℚ)), (1, 100), (2, 100)] else [])
        ["A"] (singleBuyFlows 1 10 (10 * 100)) 3) "A" = 0 := by
  have h := twr_flat (fun t => if t = "A" then [(0, (100:ℚ)), (1, 100), (2, 100)] else [])
    2 1 10 100 (by norm_num) ?_
  · exact h
  · intro d hd
    interval_cases d <;> rfl

/-- C7 counterexample: the claim quantifies over every single-ticker
single-buy portfolio with a flat price series, but when the total cost of
the buy differs from shares times the market price, the first day books a
nonzero return: buying 10 shares for a total cost of 500 while the price is
flat at 100 yields total_twr 100 percent, not 0. -/
theorem twr_flat_cex :
    totalTWR (runDays (fun t => if t = "A" then [(0, (100:ℚ)), (1, 100), (2, 100)] else [])
        ["A"] (singleBuyFlows 1 10 500) 3) = 100 ∧
    (100 : ℚ) ≠ 0 := by
  constructor
  · norm_num [runDays, dayStep, applyFlows, markToMarket, updateTickers, resolvePrice,
      lookupDay, padPrice, initPState, initTState, totalTWR, singleBuyFlows]
  · norm_num

end StockApp
